import Mathlib

/-!
Shallow embedding of the `vault-manager` reconciliation modules
(`VaultManagerPolicies.py`, `VaultManagerAuth.py`, `VaultManagerKV.py`).

External effects (the remote Vault client, the local filesystem, the
process environment) are modelled explicitly: remote calls become
elements of a call-trace list, the policy filesystem becomes a small
state record, and the oracles (remote listings, fetched contents) are
parameters of the embedded functions.
-/

namespace VaultManager

/-- Python's `str.split("_")` on the underlying character list: splits at
every `'_'`, keeping empty segments, and yields `[[]]` on the empty
string (Python: `"".split("_") == ['']`). -/
def splitUnd : List Char → List (List Char)
  | [] => [[]]
  | c :: cs =>
    if c = '_' then [] :: splitUnd cs
    else
      match splitUnd cs with
      | [] => [[c]]
      | s :: ss => (c :: s) :: ss

theorem splitUnd_ne_nil (l : List Char) : splitUnd l ≠ [] := by
  induction l with
  | nil => simp [splitUnd]
  | cons c cs ih =>
    simp only [splitUnd]
    by_cases h : c = '_'
    · simp [h]
    · simp only [if_neg h]
      cases hs : splitUnd cs with
      | nil => simp
      | cons s ss => simp

theorem splitUnd_append (xs ys : List Char) (h : '_' ∉ xs) :
    splitUnd (xs ++ ys) = (xs ++ (splitUnd ys).headI) :: (splitUnd ys).tail := by
  induction xs with
  | nil =>
    simp only [List.nil_append]
    cases hs : splitUnd ys with
    | nil => exact absurd hs (splitUnd_ne_nil ys)
    | cons s ss => simp
  | cons x xs ih =>
    have hx : x ≠ '_' := fun hc => h (hc ▸ List.mem_cons_self x xs)
    have hxs : '_' ∉ xs := fun hc => h (List.mem_cons_of_mem x hc)
    simp only [List.cons_append, splitUnd, if_neg hx, List.append_eq, ih hxs]

theorem splitUnd_no_und (xs : List Char) (h : '_' ∉ xs) :
    splitUnd xs = [xs] := by
  have := splitUnd_append xs [] h
  simpa [splitUnd] using this

/-- `VaultManagerPolicies.policies_pull`, lines 79-80: a remote policy
name is decoded by splitting on `"_"`; it is accepted iff there are
exactly three segments and the last is `"policy"`, in which case the
first segment is the category (local folder) and the second the policy
name (local file stem). -/
def decodePolicyName (s : String) : Option (String × String) :=
  let splitted := splitUnd s.data
  if splitted.length = 3 ∧ splitted.getD 2 [] = "policy".data then
    some (String.mk (splitted.getD 0 []), String.mk (splitted.getD 1 []))
  else
    none

/-- `VaultManagerPolicies.policies_push`, line 114: the remote name of a
local policy file is `prefix + "_" + name + "_policy"` where the prefix
is the parent directory name and `name` the file stem. -/
def encodePolicyName (category name : String) : String :=
  category ++ "_" ++ name ++ "_policy"

theorem decode_encode (category name : String)
    (hc : '_' ∉ category.data) (hn : '_' ∉ name.data) :
    decodePolicyName (encodePolicyName category name) = some (category, name) := by
  have hdata : (encodePolicyName category name).data
      = category.data ++ '_' :: (name.data ++ '_' :: "policy".data) := by
    simp [encodePolicyName, String.data_append]
  have hpol : splitUnd "policy".data = ["policy".data] :=
    splitUnd_no_und _ (by decide)
  have h2 : splitUnd (name.data ++ '_' :: "policy".data)
      = name.data :: ["policy".data] := by
    rw [splitUnd_append name.data _ hn]
    simp [splitUnd, hpol]
  have h1 : splitUnd (category.data ++ '_' :: (name.data ++ '_' :: "policy".data))
      = [category.data, name.data, "policy".data] := by
    rw [splitUnd_append category.data _ hc]
    simp [splitUnd, h2]
  simp only [decodePolicyName, hdata, h1]
  rw [if_pos (by simp)]
  cases category
  cases name
  rfl

/-- Python exception kinds raised by the embedded code paths. -/
inductive PyError where
  | typeError
  | valueError
  | keyError
  deriving DecidableEq, Repr

/-- Outcome of a module `run`: an early `return False` (help printed /
environment check failed) versus falling off the end of the function. -/
inductive RunOutcome where
  | failed
  | completed
  deriving DecidableEq, Repr

/-- A Python value as it appears in the parsed-argument namespaces:
`None`, a boolean, or a string. -/
inductive PyVal where
  | vNone
  | vBool (b : Bool)
  | vStr (s : String)
  deriving DecidableEq, Repr

/-- Python truthiness of a `PyVal`. -/
def pyTruthy : PyVal → Bool
  | .vNone => false
  | .vBool b => b
  | .vStr s => s ≠ ""

namespace Policies

/-- The builtin `all` applied to TWO positional arguments, as on line 60
of `VaultManagerPolicies.py`: `all` takes exactly one iterable, so the
call raises `TypeError` before looking at either argument. -/
def pyAll2 (_a _b : Bool) : Except PyError Bool :=
  .error .typeError

/-- The builtin `any` applied to TWO positional arguments, as on line 64
of `VaultManagerPolicies.py`: raises `TypeError` like `pyAll2`. -/
def pyAny2 (_a _b : Bool) : Except PyError Bool :=
  .error .typeError

/-- Parsed arguments reaching `VaultManagerPolicies.run`: the module
flags `--pull`/`--push` (store_true booleans) plus the global arguments
inspected by the missing-argument check. -/
structure Args where
  pull : Bool
  push : Bool
  vault_addr : PyVal
  vault_token : PyVal
  vault_config : PyVal
  dry_run : Bool
  skip_tls : Bool
  deriving DecidableEq, Repr

/-- `VaultManagerPolicies.check_args_integrity` (lines 55-67): calls
`all(pull, push)` and `any(pull, push)` — both with two positional
arguments — so the first call raises `TypeError`. -/
def check_args_integrity (args : Args) : Except PyError Bool := do
  let both ← pyAll2 args.pull args.push
  if both then
    return false
  else
    let either ← pyAny2 args.pull args.push
    if !either then
      return false
    else
      return true

/-- One remote Vault client call made by the policies module. -/
inductive PolicyCall where
  | authenticate
  | policyList
  | policyGet (name : String)
  | policyDelete (name : String)
  | policySet (name content : String)
  deriving DecidableEq, Repr

/-- A local policy file found by the glob `policies/*/*.hcl`: parent
directory name (`category`), file stem (`stem`), file content. -/
structure LocalFile where
  category : String
  stem : String
  content : String
  deriving DecidableEq, Repr

/-- An entry of the `local_policies` list built in `policies_push`
(lines 107-115): the encoded remote name plus the file content. -/
structure LocalPolicy where
  name : String
  content : String
  deriving DecidableEq, Repr

/-- `policies_push`, lines 107-115: each globbed file becomes
`{"name": prefix + "_" + name + "_policy", "content": ...}`. -/
def buildLocalPolicies (files : List LocalFile) : List LocalPolicy :=
  files.map (fun f => ⟨encodePolicyName f.category f.stem, f.content⟩)

/-- `VaultManagerPolicies.policies_push` (lines 98-129) as the trace of
remote calls it makes, given the local policy files and the remote
policy listing: delete every distant policy whose name is not among the
locally encoded names, then set every local policy unconditionally. -/
def policies_push (files : List LocalFile) (distant : List String) :
    List PolicyCall :=
  let locals := buildLocalPolicies files
  PolicyCall.policyList ::
    ((distant.filter (fun d => !((locals.map LocalPolicy.name).contains d))).map
        PolicyCall.policyDelete
      ++ locals.map (fun p => PolicyCall.policySet p.name p.content))

/-- The local policies folder as seen by `policies_pull`: the set of
existing category directories, and the file contents keyed by
`(directory, filename)`. -/
structure FS where
  dirs : List String
  files : String × String → Option String

/-- Overwrite (`open(..., 'w+')`) the file at one `(dir, filename)` key. -/
def FS.write (fs : FS) (k : String × String) (v : String) : FS :=
  { fs with files := fun k' => if k' = k then some v else fs.files k' }

/-- One iteration of the loop in `policies_pull` (lines 77-95) for a
single distant policy name: a name failing the pattern check is skipped
with a warning; otherwise the category directory is created if missing
and the fetched content is written to `category/name.hcl`. -/
def pullStep (fetch : String → String) (st : FS × List String)
    (policy : String) : FS × List String :=
  match decodePolicyName policy with
  | none => (st.1, st.2 ++ [policy])
  | some (category, name) =>
    let fs := st.1
    let fs := if fs.dirs.contains category then fs
      else { fs with dirs := category :: fs.dirs }
    (fs.write (category, name ++ ".hcl") (fetch policy), st.2)

/-- `VaultManagerPolicies.policies_pull` (lines 69-96): fold `pullStep`
over the distant policy listing, returning the final folder state and
the warned-about (skipped) names. -/
def policies_pull (fetch : String → String) (distant : List String)
    (fs : FS) : FS × List String :=
  distant.foldl (pullStep fetch) (fs, [])

/-- The missing-argument check of `VaultManagerPolicies.run`
(lines 143-148). Modelled from the spec: `utils.keys_exists_in_dict`
lives in `lib/utils.py`, which is not among the provided sources; per
the spec ("missing required inputs is fatal before any remote call is
attempted") and the call site, it returns the keys whose value is one
of the excluded values listed for that key. -/
def missingArgs (args : Args) : List String :=
  (if [PyVal.vNone, PyVal.vStr ""].contains args.vault_addr
    then ["vault_addr"] else [])
  ++ (if [PyVal.vNone, PyVal.vBool false].contains args.vault_token
    then ["vault_token"] else [])
  ++ (if [PyVal.vNone, PyVal.vBool false, PyVal.vStr ""].contains args.vault_config
    then ["vault_config"] else [])

/-- The remote calls made by `policies_pull` (lines 69-96): one
`policy_list`, then one `policy_get` per name passing the pattern
check. -/
def pullCallTrace (distant : List String) : List PolicyCall :=
  PolicyCall.policyList ::
    (distant.filter (fun p => (decodePolicyName p).isSome)).map PolicyCall.policyGet

/-- `VaultManagerPolicies.run` (lines 131-170) as the trace of remote
calls plus its outcome, given the remote listing and the local files. -/
def run (args : Args) (distant : List String) (files : List LocalFile) :
    List PolicyCall × Except PyError RunOutcome :=
  match check_args_integrity args with
  | .error e => ([], .error e)
  | .ok false => ([], .ok .failed)
  | .ok true =>
    if missingArgs args ≠ [] then
      ([], .error .valueError)
    else
      let pullCalls := if args.pull then pullCallTrace distant else []
      let pushCalls := if args.push then policies_push files distant else []
      (PolicyCall.authenticate :: (pullCalls ++ pushCalls), .ok .completed)

end Policies

namespace Auth

/-- Insertion of one key/value pair into a key-sorted association list,
used to model Python's `sorted(dict.items())` (keys are unique in a
dict, so sorting the pairs lexicographically sorts by key). -/
def insertPair (p : String × String) :
    List (String × String) → List (String × String)
  | [] => [p]
  | q :: qs => if p.1 < q.1 then p :: q :: qs else q :: insertPair p qs

/-- Python's `sorted(dict.items())`: the association list sorted by key. -/
def sortPairs (l : List (String × String)) : List (String × String) :=
  l.foldr insertPair []

/-- `lib.VaultAuthMethod.VaultAuthMethod`: type tag, mount path,
description, tuning as a key-sorted association list
(`OrderedDict(sorted(...))`), optional method-specific auth config. -/
structure VaultAuthMethod where
  type : String
  path : String
  description : String
  tuning : List (String × String)
  auth_config : Option (List (String × String)) := none
  deriving DecidableEq, Repr

/-- Modelled from the spec: `VaultAuthMethod.__eq__` (in
`lib/VaultAuthMethod.py`, not among the provided sources). "Equality
between two AuthMounts is defined only by `(type, path)` — description
and tuning are excluded from equality." -/
def authEq (a b : VaultAuthMethod) : Bool :=
  a.type = b.type ∧ a.path = b.path

/-- Python's `x in l` over a list of `VaultAuthMethod`, which compares
elements with `VaultAuthMethod.__eq__`. -/
def memAuth (x : VaultAuthMethod) (l : List VaultAuthMethod) : Bool :=
  l.any (fun y => authEq y x)

/-- Modelled from the spec: `VaultAuthMethod.get_tuning_hash` (in
`lib/VaultAuthMethod.py`, not among the provided sources). "Canonicalizes
the tuning mapping by sorting keys, serializes deterministically, and
applies a stable hashing function"; the tuning list is already
key-sorted at construction, so the hash is modelled as the canonical
serialization itself (an injective stable hash). -/
def get_tuning_hash (m : VaultAuthMethod) : String :=
  String.join (m.tuning.map (fun p => p.1 ++ "=" ++ p.2 ++ ";"))

/-- One raw entry of the remote `auth_list()` mapping: the dict value
under one key, with its `type`, optional `path`, `description` and
`config` fields. -/
structure RawMethod where
  type : String
  path : Option String
  description : String
  config : List (String × String)
  deriving DecidableEq, Repr

/-- `VaultManagerAuth.get_distant_auth_methods` (lines 98-118): build a
`VaultAuthMethod` per listing entry, taking the path from the entry's
`path` field when present and from the mapping key otherwise, and
sorting the tuning. -/
def get_distant_auth_methods (raw : List (String × RawMethod)) :
    List VaultAuthMethod :=
  raw.map (fun e =>
    { type := e.2.type
      path := e.2.path.getD e.1
      description := e.2.description
      tuning := sortPairs e.2.config
      auth_config := none })

/-- One declared auth method from `auth-methods.yml`. -/
structure ConfMethod where
  type : String
  path : String
  description : String
  tuning : List (String × String)
  auth_config : Option (List (String × String)) := none
  deriving DecidableEq, Repr

/-- `VaultManagerAuth.get_local_auth_methods` (lines 120-142): build a
`VaultAuthMethod` per declared entry, sorting tuning and (when present)
auth config. -/
def get_local_auth_methods (conf : List ConfMethod) :
    List VaultAuthMethod :=
  conf.map (fun m =>
    { type := m.type
      path := m.path
      description := m.description
      tuning := sortPairs m.tuning
      auth_config := m.auth_config.map sortPairs })

/-- One remote Vault client call made by the auth module. `tune` carries
the TTL values successfully looked up in the local tuning mapping; a
missing key raises `KeyError` before any call is made (see
`tune_auth_method`). -/
inductive AuthCall where
  | authenticate
  | authList
  | disable (path : String)
  | enable (type path description : String)
  | tune (path default_lease_ttl max_lease_ttl description : String)
  | configure (type path : String)
  deriving DecidableEq, Repr

/-- `VaultManagerAuth.disable_distant_auth_methods` (lines 144-152):
disable every distant method not present (by `__eq__`) in the local
list. -/
def disableCalls (distant locals : List VaultAuthMethod) : List AuthCall :=
  (distant.filter (fun d => !(memAuth d locals))).map
    (fun d => AuthCall.disable d.path)

/-- `VaultManagerAuth.enable_distant_auth_methods` (lines 154-166):
enable every local method not present (by `__eq__`) in the distant
list, passing its type, path and description. -/
def enableCalls (locals distant : List VaultAuthMethod) : List AuthCall :=
  (locals.filter (fun l => !(memAuth l distant))).map
    (fun l => AuthCall.enable l.type l.path l.description)

/-- Argument evaluation of the `auth_tune` call in `tune_auth_method`
(lines 186-191), over the two looked-up TTL values: Python evaluates
the keyword arguments left to right, so a missing `default_lease_ttl`
or `max_lease_ttl` key raises `KeyError` and NO remote call is made. -/
def tuneArgs (path description : String) :
    Option String → Option String → Except PyError AuthCall
  | none, _ => .error .keyError
  | some _, none => .error .keyError
  | some dttl, some mttl => .ok (AuthCall.tune path dttl mttl description)

/-- `VaultManagerAuth.tune_auth_method` (lines 168-191): the `auth_tune`
call for one local method, or the `KeyError` raised while indexing
`local_auth_method.tuning["default_lease_ttl"]` /
`["max_lease_ttl"]` (lines 188-189). -/
def tune_auth_method (l : VaultAuthMethod) : Except PyError AuthCall :=
  tuneArgs l.path l.description (l.tuning.lookup "default_lease_ttl")
    (l.tuning.lookup "max_lease_ttl")

/-- The selection of `VaultManagerAuth.find_auth_methods_to_tune`
(lines 193-209) in loop order: for every distant method, every local
method equal under `__eq__` whose tuning hash differs. -/
def tunePairs (distant locals : List VaultAuthMethod) :
    List VaultAuthMethod :=
  distant.flatMap (fun d =>
    locals.filter (fun l =>
      authEq d l && !(get_tuning_hash d = get_tuning_hash l)))

/-- One step of the sequential tune loop: a raised exception discards
the remaining iterations; a successful call is prepended to the
remaining trace. -/
def tuneCons :
    Except PyError AuthCall → List AuthCall × Option PyError →
      List AuthCall × Option PyError
  | .error e, _ => ([], some e)
  | .ok c, r => (c :: r.1, r.2)

/-- The sequential execution of the tune loop over the selected local
methods: the `auth_tune` calls made in order until the first raise,
which aborts the loop with that exception. -/
def runTunes : List VaultAuthMethod → List AuthCall × Option PyError
  | [] => ([], none)
  | l :: ls => tuneCons (tune_auth_method l) (runTunes ls)

/-- The tune phase of `auth_push`: the `auth_tune` calls made by
`find_auth_methods_to_tune` (lines 193-209) and the exception that
aborted the loop, if any. -/
def tuneCalls (distant locals : List VaultAuthMethod) :
    List AuthCall × Option PyError :=
  runTunes (tunePairs distant locals)

/-- One iteration of the auth-method-specific configuration loop of
`auth_push` (lines 233-254) for a method with the given type, path and
auth config: a configuration step happens exactly when the config is
truthy (present and non-empty) and the type is `ldap` or `approle`. -/
def configStep (type path : String) :
    Option (List (String × String)) → Option AuthCall
  | some c =>
    if c ≠ [] ∧ (type = "ldap" ∨ type = "approle") then
      some (AuthCall.configure type path)
    else none
  | none => none

/-- The auth-method-specific configuration loop of `auth_push`
(lines 233-254) over the local methods. -/
def configureCalls (locals : List VaultAuthMethod) : List AuthCall :=
  locals.filterMap (fun l => configStep l.type l.path l.auth_config)

/-- The part of the `auth_push` trace after the tune phase: an
exception raised during tuning propagates, so the configuration loop
(lines 233-254) runs only when no exception was raised. -/
def afterTunes (locals : List VaultAuthMethod) :
    Option PyError → List AuthCall
  | some _ => []
  | none => configureCalls locals

/-- The `"auth-methods-deletion" in self.conf and
self.conf["auth-methods-deletion"]` condition of `auth_push`
(lines 223-224): key present and value truthy. -/
def deletionEnabled : Option PyVal → Bool
  | some v => pyTruthy v
  | none => false

/-- `VaultManagerAuth.auth_push` (lines 211-254) as the trace of remote
calls it makes plus the exception aborting the run, if any: first
`auth_list` fetch, conditional disables, enables, the `auth_list`
re-fetch, the tune phase computed against the re-fetched listing, then
— only when the tune phase raised no exception — the method-specific
configuration loop. `locals` is the declared list already built by
`get_local_auth_methods`; `distant0` and `distant1` are the listings
returned by the first fetch and the re-fetch. -/
def auth_push (locals : List VaultAuthMethod) (deletion : Option PyVal)
    (distant0 distant1 : List VaultAuthMethod) :
    List AuthCall × Option PyError :=
  let tunes := tuneCalls distant1 locals
  (AuthCall.authList ::
      ((if deletionEnabled deletion then disableCalls distant0 locals else [])
        ++ enableCalls locals distant0
        ++ AuthCall.authList :: (tunes.1 ++ afterTunes locals tunes.2)),
    tunes.2)

/-- Arguments reaching `VaultManagerAuth.run` as the `kwargs`
namedtuple. -/
structure Args where
  push : PyVal
  vault_addr : PyVal
  vault_token : PyVal
  vault_config : PyVal
  dry_run : Bool
  skip_tls : Bool
  deriving DecidableEq, Repr

/-- `VaultManagerAuth.check_args_integrity` (lines 70-81): count `False`
and `None` occurrences in `[push]`; when the sum is in `[1]` the check
fails. -/
def check_args_integrity (args : Args) : Bool :=
  let args_false_count := ([args.push].count (PyVal.vBool false))
  let args_none_count := ([args.push].count PyVal.vNone)
  let no_args_count := args_false_count + args_none_count
  !([1].contains no_args_count)

/-- The missing-argument check of `VaultManagerAuth.run`
(lines 269-274). Modelled from the spec: `utils.keys_exists_in_dict`
lives in `lib/utils.py`, which is not among the provided sources; per
the spec and the call site it returns the keys whose value is one of
the excluded values listed for that key. -/
def missingArgs (args : Args) : List String :=
  (if [PyVal.vNone, PyVal.vStr ""].contains args.vault_addr
    then ["vault_addr"] else [])
  ++ (if [PyVal.vNone, PyVal.vBool false].contains args.vault_token
    then ["vault_token"] else [])
  ++ (if [PyVal.vNone, PyVal.vBool false, PyVal.vStr ""].contains args.vault_config
    then ["vault_config"] else [])

/-- `VaultManagerAuth.run` (lines 256-288) as the trace of remote calls
plus its outcome: argument-integrity check, missing-argument check
(raising `ValueError`), client construction and authentication, then
`auth_push` when `push` is truthy; an exception raised inside
`auth_push` propagates out of `run`. -/
def run (args : Args) (conf : List ConfMethod) (deletion : Option PyVal)
    (raw0 raw1 : List (String × RawMethod)) :
    List AuthCall × Except PyError RunOutcome :=
  if !(check_args_integrity args) then
    ([], .ok .failed)
  else if missingArgs args ≠ [] then
    ([], .error .valueError)
  else if pyTruthy args.push then
    let p := auth_push (get_local_auth_methods conf) deletion
      (get_distant_auth_methods raw0) (get_distant_auth_methods raw1)
    (AuthCall.authenticate :: p.1,
      match p.2 with
      | some e => .error e
      | none => .ok .completed)
  else
    ([AuthCall.authenticate], .ok .completed)

end Auth

namespace KV

/-- The four environment variables checked by
`VaultManagerKV.check_env_vars` (lines 53-68); `none` means the
variable is absent from `os.environ`. -/
structure Env where
  vault_addr : Option String
  vault_token : Option String
  vault_target_addr : Option String
  vault_target_token : Option String
  deriving DecidableEq, Repr

/-- `VaultManagerKV.check_env_vars` (lines 53-68): all four variables
must be present in the environment. -/
def check_env_vars (env : Env) : Bool :=
  env.vault_addr.isSome && env.vault_token.isSome
    && env.vault_target_addr.isSome && env.vault_target_token.isSome

/-- One remote Vault client call made by the KV module:
`authenticate` on the source instance, `authenticateTarget` on the
target instance, recursive listing, secret reads, secret writes. -/
inductive KVCall where
  | authenticate
  | authenticateTarget
  | secretsTree (root : String)
  | readSecret (path : String)
  | write (path doc : String)
  deriving DecidableEq, Repr

/-- `VaultManagerKV.read_from_vault` (lines 70-97) as the trace of
source-side calls plus the exported `kv_full` mapping (insertion
order): list the tree under the export root, then read every listed
leaf. `tree` and `readSec` are the responses of `get_secrets_tree` and
`read_secret`. -/
def read_from_vault (tree : String → List String)
    (readSec : String → String) (root : String) :
    List KVCall × List (String × String) :=
  let kv_list := tree root
  (KVCall.authenticate :: KVCall.secretsTree root ::
      kv_list.map KVCall.readSecret,
    kv_list.map (fun kv => (kv, readSec kv)))

/-- `VaultManagerKV.push_to_vault` (lines 99-116) as the trace of
target-side calls: authenticate against the target, then write every
exported document to its own path. -/
def push_to_vault (exported : List (String × String)) : List KVCall :=
  KVCall.authenticateTarget :: exported.map (fun s => KVCall.write s.1 s.2)

/-- `VaultManagerKV.run` (lines 118-137) as the trace of remote calls
plus its outcome: environment check, export-argument check, then
`read_from_vault` followed by `push_to_vault`. -/
def run (env : Env) (export? : Option String)
    (tree : String → List String) (readSec : String → String) :
    List KVCall × Except PyError RunOutcome :=
  if !(check_env_vars env) then
    ([], .ok .failed)
  else
    match export? with
    | none => ([], .ok .failed)
    | some root =>
      let r := read_from_vault tree readSec root
      (r.1 ++ push_to_vault r.2, .ok .completed)

end KV

end VaultManager

namespace VaultManager

open Policies Auth KV

theorem elem_false_iff {α : Type} [DecidableEq α] {a : α} {l : List α} :
    List.elem a l = false ↔ a ∉ l := by
  constructor
  · intro h hm
    rw [List.elem_iff.mpr hm] at h
    cases h
  · intro hm
    cases he : List.elem a l
    · rfl
    · exact absurd (List.elem_iff.mp he) hm

/-- C4: for every (category, name) pair in which neither segment contains
an underscore, decoding the encoded name "{category}_{name}_policy"
yields the pair back; and decoding "foo", "a_b", "a_b_c_d" and
"a_b_notpolicy" each yields none (the name is treated as foreign). -/
theorem C4_policy_name_codec_round_trip :
    (∀ category name : String, '_' ∉ category.data → '_' ∉ name.data →
      decodePolicyName (encodePolicyName category name) = some (category, name))
    ∧ decodePolicyName "foo" = none
    ∧ decodePolicyName "a_b" = none
    ∧ decodePolicyName "a_b_c_d" = none
    ∧ decodePolicyName "a_b_notpolicy" = none :=
  ⟨decode_encode, by decide, by decide, by decide, by decide⟩

/-- Witness for C4 at the concrete pair ("team", "read"). -/
theorem C4_witness :
    decodePolicyName (encodePolicyName "team" "read") = some ("team", "read") :=
  C4_policy_name_codec_round_trip.1 "team" "read" (by decide) (by decide)

/-- C1 counterexample: with no local policy files and the single remote
policy name "custom_unmanaged" — which does NOT decode under the policy
name codec — policy push still calls delete on it. -/
theorem C1_counterexample :
    PolicyCall.policyDelete "custom_unmanaged"
        ∈ policies_push [] ["custom_unmanaged"]
      ∧ decodePolicyName "custom_unmanaged" = none := by
  constructor
  · decide
  · decide

/-- C1 (amended): during policy push, delete is called on exactly the
observed remote names that are absent from the locally encoded name
list, regardless of whether they decode under the policy name codec;
in particular a remote name that fails to decode IS deleted whenever it
has no local counterpart. -/
theorem C1_amended_push_delete_exactly_not_local
    (files : List LocalFile) (distant : List String) (d : String) :
    PolicyCall.policyDelete d ∈ policies_push files distant ↔
      d ∈ distant ∧ d ∉ (buildLocalPolicies files).map LocalPolicy.name := by
  simp only [policies_push, List.mem_cons, List.mem_append, List.mem_map,
    List.mem_filter, Bool.not_eq_true', List.contains, List.elem_iff,
    List.mem_map]
  constructor
  · rintro (h | ⟨⟨x, ⟨hx, hnx⟩, hxd⟩ | ⟨p, hp, hpd⟩⟩)
    · exact absurd h (by simp)
    · cases hxd
      exact ⟨hx, by simpa using elem_false_iff.mp hnx⟩
    · exact absurd hpd (by simp)
  · rintro ⟨hd, hnd⟩
    exact Or.inr (Or.inl ⟨d, ⟨hd, elem_false_iff.mpr (by simpa using hnd)⟩, rfl⟩)


/-- C2: for every parsed-arguments object, the policies
check_args_integrity raises a TypeError (it invokes the builtin all
with two positional arguments), so the policies run raises before
reaching the missing-argument check, client construction, policy pull,
or policy push: its call trace is empty. -/
theorem C2_policies_check_args_raises_type_error
    (args : Policies.Args) (distant : List String) (files : List LocalFile) :
    Policies.check_args_integrity args = .error .typeError
    ∧ Policies.run args distant files = ([], .error .typeError) :=
  ⟨rfl, rfl⟩

/-- C7: during policy pull, a remote name that decodes to
(category, name) has the category directory present afterwards, the
fetched content written (overwriting) at category/name.hcl, no other
file changed, no other directory created, and no warning recorded; a
remote name that fails to decode leaves the folder state unchanged and
is recorded as a warning. -/
theorem C7_pull_step_behaviour (fetch : String → String) (fs : FS)
    (ws : List String) (policy category name : String) :
    (decodePolicyName policy = some (category, name) →
      category ∈ (pullStep fetch (fs, ws) policy).1.dirs
      ∧ (pullStep fetch (fs, ws) policy).1.files (category, name ++ ".hcl")
          = some (fetch policy)
      ∧ (∀ k, k ≠ (category, name ++ ".hcl") →
          (pullStep fetch (fs, ws) policy).1.files k = fs.files k)
      ∧ (∀ d, d ∉ fs.dirs → d ≠ category →
          d ∉ (pullStep fetch (fs, ws) policy).1.dirs)
      ∧ (pullStep fetch (fs, ws) policy).2 = ws)
    ∧ (decodePolicyName policy = none →
        pullStep fetch (fs, ws) policy = (fs, ws ++ [policy])) := by
  constructor
  · intro hdec
    simp only [pullStep, hdec]
    by_cases hdir : category ∈ fs.dirs
    · exact ⟨by simp [FS.write, hdir], by simp [FS.write, hdir],
        fun k hk => by simp [FS.write, hdir, hk],
        fun d hd _ => by simpa [FS.write, hdir] using hd,
        by simp [hdir]⟩
    · exact ⟨by simp [FS.write, hdir], by simp [FS.write, hdir],
        fun k hk => by simp [FS.write, hdir, hk],
        fun d hd hdc => by simp [FS.write, hdir, hd, hdc],
        by simp [hdir]⟩
  · intro hdec
    simp [pullStep, hdec]

/-- Witness for C7 at a decodable and a non-decodable concrete name,
over the empty folder state. -/
theorem C7_witness :
    ("user" ∈ (pullStep (fun _ => "doc") (⟨[], fun _ => none⟩, [])
        "user_admin_policy").1.dirs
      ∧ (pullStep (fun _ => "doc") (⟨[], fun _ => none⟩, [])
          "user_admin_policy").1.files ("user", "admin.hcl") = some "doc")
    ∧ pullStep (fun _ => "doc") (⟨[], fun _ => none⟩, []) "foo"
        = (⟨[], fun _ => none⟩, ["foo"]) := by
  have h := C7_pull_step_behaviour (fun _ => "doc") ⟨[], fun _ => none⟩ []
    "user_admin_policy" "user" "admin"
  have h2 := C7_pull_step_behaviour (fun _ => "doc") ⟨[], fun _ => none⟩ []
    "foo" "user" "admin"
  refine ⟨⟨(h.1 (by decide)).1, (h.1 (by decide)).2.1⟩, h2.2 (by decide)⟩

theorem mem_disableCalls_iff (distant locals : List VaultAuthMethod)
    (p : String) :
    AuthCall.disable p ∈ disableCalls distant locals ↔
      ∃ d ∈ distant, memAuth d locals = false ∧ d.path = p := by
  simp only [disableCalls, List.mem_map, List.mem_filter, Bool.not_eq_true']
  constructor
  · rintro ⟨d, ⟨hd, hm⟩, heq⟩
    injection heq with hp
    exact ⟨d, hd, hm, hp⟩
  · rintro ⟨d, hd, hm, hp⟩
    exact ⟨d, ⟨hd, hm⟩, by rw [hp]⟩

theorem tune_auth_method_ok (l : VaultAuthMethod) (c : AuthCall)
    (h : tune_auth_method l = .ok c) :
    ∃ dttl mttl, l.tuning.lookup "default_lease_ttl" = some dttl
      ∧ l.tuning.lookup "max_lease_ttl" = some mttl
      ∧ c = AuthCall.tune l.path dttl mttl l.description := by
  unfold tune_auth_method at h
  cases h1 : l.tuning.lookup "default_lease_ttl" with
  | none => rw [h1] at h; simp [tuneArgs] at h
  | some dttl =>
    rw [h1] at h
    cases h2 : l.tuning.lookup "max_lease_ttl" with
    | none => rw [h2] at h; simp [tuneArgs] at h
    | some mttl =>
      rw [h2] at h
      simp only [tuneArgs, Except.ok.injEq] at h
      exact ⟨dttl, mttl, rfl, rfl, h.symm⟩

theorem tune_auth_method_eq_ok (l : VaultAuthMethod)
    (p dttl mttl desc : String) :
    tune_auth_method l = .ok (AuthCall.tune p dttl mttl desc) ↔
      p = l.path ∧ l.tuning.lookup "default_lease_ttl" = some dttl
        ∧ l.tuning.lookup "max_lease_ttl" = some mttl
        ∧ desc = l.description := by
  constructor
  · intro h
    obtain ⟨a, b, h1, h2, hc⟩ := tune_auth_method_ok l _ h
    injection hc with hp ha hb hd
    exact ⟨hp, by rw [h1, ha], by rw [h2, hb], hd⟩
  · rintro ⟨rfl, h1, h2, rfl⟩
    simp [tune_auth_method, tuneArgs, h1, h2]

theorem mem_tunePairs (distant locals : List VaultAuthMethod)
    (y : VaultAuthMethod) :
    y ∈ tunePairs distant locals ↔
      ∃ d ∈ distant, y ∈ locals ∧ authEq d y = true
        ∧ get_tuning_hash d ≠ get_tuning_hash y := by
  simp [tunePairs, List.mem_flatMap, List.mem_filter, Bool.and_eq_true,
    Bool.not_eq_true', decide_eq_false_iff_not]

theorem runTunes_ok (ls : List VaultAuthMethod) :
    (∀ l ∈ ls, (l.tuning.lookup "default_lease_ttl").isSome
      ∧ (l.tuning.lookup "max_lease_ttl").isSome) →
    ∀ x : AuthCall,
      (x ∈ (runTunes ls).1 ↔ ∃ l ∈ ls, tune_auth_method l = .ok x) := by
  induction ls with
  | nil => intro _ x; simp [runTunes]
  | cons l ls ih =>
    intro h x
    have hl := h l (List.mem_cons_self l ls)
    obtain ⟨dttl, h1⟩ := Option.isSome_iff_exists.mp hl.1
    obtain ⟨mttl, h2⟩ := Option.isSome_iff_exists.mp hl.2
    have hok : tune_auth_method l
        = .ok (AuthCall.tune l.path dttl mttl l.description) := by
      simp [tune_auth_method, tuneArgs, h1, h2]
    have ih2 := ih (fun y hy => h y (List.mem_cons_of_mem l hy))
    simp only [runTunes, hok, tuneCons, List.mem_cons]
    constructor
    · rintro (rfl | hx)
      · exact ⟨l, Or.inl rfl, hok⟩
      · obtain ⟨y, hy, hoky⟩ := (ih2 x).mp hx
        exact ⟨y, Or.inr hy, hoky⟩
    · rintro ⟨y, rfl | hy2, hoky⟩
      · left
        rw [hok] at hoky
        injection hoky with hc
        exact hc.symm
      · right
        exact (ih2 x).mpr ⟨y, hy2, hoky⟩

theorem mem_tunePhase_iff (distant locals : List VaultAuthMethod)
    (p dttl mttl desc : String)
    (hkeys : ∀ l ∈ tunePairs distant locals,
      (l.tuning.lookup "default_lease_ttl").isSome
        ∧ (l.tuning.lookup "max_lease_ttl").isSome) :
    AuthCall.tune p dttl mttl desc ∈ (tuneCalls distant locals).1 ↔
      ∃ d ∈ distant, ∃ l ∈ locals, authEq d l = true
        ∧ get_tuning_hash d ≠ get_tuning_hash l
        ∧ p = l.path ∧ l.tuning.lookup "default_lease_ttl" = some dttl
        ∧ l.tuning.lookup "max_lease_ttl" = some mttl
        ∧ desc = l.description := by
  rw [tuneCalls, runTunes_ok _ hkeys (AuthCall.tune p dttl mttl desc)]
  constructor
  · rintro ⟨l, hl, hok⟩
    obtain ⟨d, hd, hl2, heq, hh⟩ := (mem_tunePairs _ _ l).mp hl
    obtain ⟨hp, h1, h2, hd2⟩ := (tune_auth_method_eq_ok _ _ _ _ _).mp hok
    exact ⟨d, hd, l, hl2, heq, hh, hp, h1, h2, hd2⟩
  · rintro ⟨d, hd, l, hl, heq, hh, hp, h1, h2, hd2⟩
    exact ⟨l, (mem_tunePairs _ _ l).mpr ⟨d, hd, hl, heq, hh⟩,
      (tune_auth_method_eq_ok _ _ _ _ _).mpr ⟨hp, h1, h2, hd2⟩⟩

theorem disableCalls_shape (distant locals : List VaultAuthMethod)
    (x : AuthCall) (h : x ∈ disableCalls distant locals) :
    ∃ p, x = AuthCall.disable p := by
  simp only [disableCalls, List.mem_map] at h
  rcases h with ⟨d, _, rfl⟩
  exact ⟨d.path, rfl⟩

theorem enableCalls_shape (locals distant : List VaultAuthMethod)
    (x : AuthCall) (h : x ∈ enableCalls locals distant) :
    ∃ t p d, x = AuthCall.enable t p d := by
  simp only [enableCalls, List.mem_map] at h
  rcases h with ⟨l, _, rfl⟩
  exact ⟨l.type, l.path, l.description, rfl⟩

theorem runTunes_shape (ls : List VaultAuthMethod) (x : AuthCall)
    (h : x ∈ (runTunes ls).1) : ∃ p a b d, x = AuthCall.tune p a b d := by
  induction ls with
  | nil => simp [runTunes] at h
  | cons l ls ih =>
    simp only [runTunes] at h
    cases hc : tune_auth_method l with
    | error e => rw [hc] at h; simp [tuneCons] at h
    | ok c =>
      rw [hc] at h
      simp only [tuneCons, List.mem_cons] at h
      rcases h with rfl | h
      · obtain ⟨dttl, mttl, _, _, hcEq⟩ := tune_auth_method_ok l x hc
        exact ⟨l.path, dttl, mttl, l.description, hcEq⟩
      · exact ih h

theorem configureCalls_shape (locals : List VaultAuthMethod)
    (x : AuthCall) (h : x ∈ configureCalls locals) :
    ∃ t p, x = AuthCall.configure t p := by
  simp only [configureCalls, List.mem_filterMap] at h
  rcases h with ⟨l, _, hf⟩
  cases hc : l.auth_config with
  | none =>
    rw [hc] at hf
    exact absurd hf (by simp [configStep])
  | some c =>
    rw [hc] at hf
    simp only [configStep] at hf
    by_cases hcond : c ≠ [] ∧ (l.type = "ldap" ∨ l.type = "approle")
    · rw [if_pos hcond] at hf
      injection hf with hx
      exact ⟨l.type, l.path, hx.symm⟩
    · rw [if_neg hcond] at hf
      cases hf

theorem afterTunes_shape (locals : List VaultAuthMethod)
    (e : Option PyError) (x : AuthCall) (h : x ∈ afterTunes locals e) :
    ∃ t p, x = AuthCall.configure t p := by
  cases e with
  | none => exact configureCalls_shape locals x h
  | some e2 => simp [afterTunes] at h

theorem ite_disable_shape (c : Prop) [Decidable c]
    (distant locals : List VaultAuthMethod) (x : AuthCall)
    (h : x ∈ (if c then disableCalls distant locals else [])) :
    ∃ p, x = AuthCall.disable p := by
  split at h
  · exact disableCalls_shape _ _ _ h
  · cases h

/-- C3: auth push invokes remote disable exactly on the observed mounts
absent (under the (type, path) equality) from the declared set when the
deletion flag is present and truthy, and never otherwise. -/
theorem C3_disable_only_with_deletion_flag
    (locals : List VaultAuthMethod) (deletion : Option PyVal)
    (distant0 distant1 : List VaultAuthMethod) (p : String) :
    AuthCall.disable p ∈ (auth_push locals deletion distant0 distant1).1 ↔
      deletionEnabled deletion = true
        ∧ ∃ d ∈ distant0, memAuth d locals = false ∧ d.path = p := by
  simp only [auth_push, List.mem_cons, List.mem_append]
  constructor
  · rintro (h | (h | h) | h | h | h)
    · exact absurd h (by simp)
    · by_cases hdel : deletionEnabled deletion
      · rw [if_pos hdel] at h
        exact ⟨hdel, (mem_disableCalls_iff _ _ _).mp h⟩
      · rw [if_neg (by simpa using hdel)] at h
        cases h
    · rcases enableCalls_shape _ _ _ h with ⟨t, q, d, hx⟩
      simp at hx
    · exact absurd h (by simp)
    · rcases runTunes_shape _ _ h with ⟨q, a, b, d, hx⟩
      simp at hx
    · rcases afterTunes_shape _ _ _ h with ⟨t, q, hx⟩
      simp at hx
  · rintro ⟨hdel, hex⟩
    refine Or.inr (Or.inl (Or.inl ?_))
    rw [if_pos hdel]
    exact (mem_disableCalls_iff _ _ _).mpr hex

/-- C5 counterexample: the declared `ldap` mount at path `p` (empty
tuning) and the observed mount at the same (type, path) with tuning
`default_lease_ttl=1` are a matched pair with differing tuning hashes,
yet auth push makes NO tune call: indexing the local tuning with
`"default_lease_ttl"` raises `KeyError` while evaluating the
`auth_tune` arguments, the trace holds only the two fetches, and the
run aborts. -/
theorem C5_counterexample :
    authEq ⟨"ldap", "p", "dsc", [("default_lease_ttl", "1")], none⟩
        ⟨"ldap", "p", "dsc", [], none⟩ = true
    ∧ get_tuning_hash ⟨"ldap", "p", "dsc", [("default_lease_ttl", "1")], none⟩
        ≠ get_tuning_hash ⟨"ldap", "p", "dsc", [], none⟩
    ∧ (auth_push [⟨"ldap", "p", "dsc", [], none⟩] none
        [⟨"ldap", "p", "dsc", [("default_lease_ttl", "1")], none⟩]
        [⟨"ldap", "p", "dsc", [("default_lease_ttl", "1")], none⟩]).1
      = [AuthCall.authList, AuthCall.authList]
    ∧ (auth_push [⟨"ldap", "p", "dsc", [], none⟩] none
        [⟨"ldap", "p", "dsc", [("default_lease_ttl", "1")], none⟩]
        [⟨"ldap", "p", "dsc", [("default_lease_ttl", "1")], none⟩]).2
      = some PyError.keyError := by
  refine ⟨by decide, by decide, by decide, by decide⟩

/-- C5 (amended): provided every matched distant/local pair with
differing tuning hashes has both `default_lease_ttl` and
`max_lease_ttl` present in the local tuning — a missing key instead
raises `KeyError` while evaluating the `auth_tune` arguments, makes no
call and aborts the run — a tune call appears during auth push exactly
for the matched differing-hash pairs of the re-fetched listing,
carrying the path, TTL values and description of the LOCAL
declaration; matched pairs with equal hashes trigger no tune call. -/
theorem C5_amended_tune_iff_hash_differs
    (locals : List VaultAuthMethod) (deletion : Option PyVal)
    (distant0 distant1 : List VaultAuthMethod)
    (p dttl mttl desc : String)
    (hkeys : ∀ d ∈ distant1, ∀ l ∈ locals, authEq d l = true →
      get_tuning_hash d ≠ get_tuning_hash l →
      (l.tuning.lookup "default_lease_ttl").isSome
        ∧ (l.tuning.lookup "max_lease_ttl").isSome) :
    AuthCall.tune p dttl mttl desc
        ∈ (auth_push locals deletion distant0 distant1).1 ↔
      ∃ d ∈ distant1, ∃ l ∈ locals, authEq d l = true
        ∧ get_tuning_hash d ≠ get_tuning_hash l
        ∧ p = l.path ∧ l.tuning.lookup "default_lease_ttl" = some dttl
        ∧ l.tuning.lookup "max_lease_ttl" = some mttl
        ∧ desc = l.description := by
  have hkeys2 : ∀ l ∈ tunePairs distant1 locals,
      (l.tuning.lookup "default_lease_ttl").isSome
        ∧ (l.tuning.lookup "max_lease_ttl").isSome := by
    intro l hl
    obtain ⟨d, hd, hl2, heq, hh⟩ := (mem_tunePairs _ _ l).mp hl
    exact hkeys d hd l hl2 heq hh
  simp only [auth_push, List.mem_cons, List.mem_append]
  constructor
  · rintro (h | (h | h) | h | h | h)
    · exact absurd h (by simp)
    · rcases ite_disable_shape _ _ _ _ h with ⟨q, hx⟩
      simp at hx
    · rcases enableCalls_shape _ _ _ h with ⟨t, q, d, hx⟩
      simp at hx
    · exact absurd h (by simp)
    · exact (mem_tunePhase_iff _ _ _ _ _ _ hkeys2).mp h
    · rcases afterTunes_shape _ _ _ h with ⟨t, q, hx⟩
      simp at hx
  · intro hex
    exact Or.inr (Or.inr (Or.inr (Or.inl
      ((mem_tunePhase_iff _ _ _ _ _ _ hkeys2).mpr hex))))

/-- Witness for C5 at the end-to-end scenario: one approle mount at
`apps` declared with TTLs 3600/7200 and observed with 1800/7200. -/
theorem C5_witness :
    AuthCall.tune "apps" "3600" "7200" "dsc" ∈
      (auth_push
        [⟨"approle", "apps", "dsc",
          [("default_lease_ttl", "3600"), ("max_lease_ttl", "7200")], none⟩]
        none
        [⟨"approle", "apps", "dsc",
          [("default_lease_ttl", "1800"), ("max_lease_ttl", "7200")], none⟩]
        [⟨"approle", "apps", "dsc",
          [("default_lease_ttl", "1800"), ("max_lease_ttl", "7200")], none⟩]).1 :=
  (C5_amended_tune_iff_hash_differs _ _ _ _ _ _ _ _ (by decide)).mpr
    ⟨⟨"approle", "apps", "dsc",
        [("default_lease_ttl", "1800"), ("max_lease_ttl", "7200")], none⟩,
      List.mem_cons_self _ _,
      ⟨"approle", "apps", "dsc",
        [("default_lease_ttl", "3600"), ("max_lease_ttl", "7200")], none⟩,
      List.mem_cons_self _ _, by decide, by decide, rfl, rfl, rfl, rfl⟩

/-- C6: the auth push trace decomposes as the first fetch, then only
disable calls, then only enable calls, then the re-fetch, then the
calls of the tune phase — computed from the re-fetched (post-enable)
listing, and possibly cut short by a raise — then only
method-configuration steps (none when the tune phase raised). -/
theorem C6_auth_push_phase_order
    (locals : List VaultAuthMethod) (deletion : Option PyVal)
    (distant0 distant1 : List VaultAuthMethod) :
    ∃ ds es cs,
      (auth_push locals deletion distant0 distant1).1
        = AuthCall.authList :: (ds ++ (es ++ AuthCall.authList ::
            ((tuneCalls distant1 locals).1 ++ cs)))
      ∧ (∀ x ∈ ds, ∃ p, x = AuthCall.disable p)
      ∧ (∀ x ∈ es, ∃ t p d, x = AuthCall.enable t p d)
      ∧ (∀ x ∈ (tuneCalls distant1 locals).1, ∃ p a b d,
          x = AuthCall.tune p a b d)
      ∧ (∀ x ∈ cs, ∃ t p, x = AuthCall.configure t p) := by
  refine ⟨if deletionEnabled deletion then disableCalls distant0 locals else [],
    enableCalls locals distant0,
    afterTunes locals (tuneCalls distant1 locals).2,
    by simp only [auth_push, List.append_assoc],
    fun x hx => ite_disable_shape _ _ _ _ hx,
    fun x hx => enableCalls_shape _ _ _ hx,
    fun x hx => runTunes_shape _ _ hx,
    fun x hx => afterTunes_shape _ _ _ hx⟩

/-- C8: two auth mounts with the same (type, path) but different
description, tuning or auth config are equal under the modelled
VaultAuthMethod equality, membership tests over mount lists (as used to
pick what to enable, disable and tune-match) cannot distinguish them,
and in general the equality holds exactly when type and path agree. -/
theorem C8_equality_only_type_path
    (t p d1 d2 : String) (tu1 tu2 : List (String × String))
    (c1 c2 : Option (List (String × String))) (l : List VaultAuthMethod) :
    authEq ⟨t, p, d1, tu1, c1⟩ ⟨t, p, d2, tu2, c2⟩ = true
    ∧ memAuth ⟨t, p, d1, tu1, c1⟩ l = memAuth ⟨t, p, d2, tu2, c2⟩ l
    ∧ (∀ a b : VaultAuthMethod, authEq a b = true ↔
        a.type = b.type ∧ a.path = b.path) :=
  ⟨by simp [authEq], rfl, fun a b => by simp [authEq]⟩


/-- C9: KV export lists every leaf under the root, reads each one from
the source, and writes every read document verbatim to the identical
path on the target — one write per enumerated leaf, unconditionally,
with no target read and no skip — and a run whose environment check
passes performs exactly the read trace followed by the write trace. -/
theorem C9_kv_export_full_copy
    (tree : String → List String) (readSec : String → String)
    (root : String) :
    (read_from_vault tree readSec root).1
      = KVCall.authenticate :: KVCall.secretsTree root ::
          (tree root).map KVCall.readSecret
    ∧ (read_from_vault tree readSec root).2
      = (tree root).map (fun p => (p, readSec p))
    ∧ push_to_vault (read_from_vault tree readSec root).2
      = KVCall.authenticateTarget ::
          (tree root).map (fun p => KVCall.write p (readSec p))
    ∧ (∀ env : Env, check_env_vars env = true →
        (KV.run env (some root) tree readSec).1
          = (read_from_vault tree readSec root).1
            ++ push_to_vault (read_from_vault tree readSec root).2) := by
  refine ⟨rfl, rfl, ?_, ?_⟩
  · simp [read_from_vault, push_to_vault, List.map_map]
  · intro env henv
    simp [KV.run, henv]

/-- Witness for C9 over a one-leaf tree and an all-set environment. -/
theorem C9_witness :
    (KV.run ⟨some "s", some "t", some "u", some "w"⟩ (some "app")
        (fun _ => ["app/db"]) (fun _ => "doc")).1
      = (read_from_vault (fun _ => ["app/db"]) (fun _ => "doc") "app").1
        ++ push_to_vault
            (read_from_vault (fun _ => ["app/db"]) (fun _ => "doc") "app").2 :=
  (C9_kv_export_full_copy (fun _ => ["app/db"]) (fun _ => "doc") "app").2.2.2
    ⟨some "s", some "t", some "u", some "w"⟩ rfl

/-- C10: a missing required run input — one of the four KV environment
variables for KV export, or the vault address, token or configuration
directory for the auth and policies modules — makes the run fail before
any remote client call: the call trace is empty and the outcome is not
a completed run. -/
theorem C10_missing_inputs_fail_before_remote_calls :
    (∀ (env : Env) (e : Option String) (tree : String → List String)
        (readSec : String → String),
      (env.vault_addr = none ∨ env.vault_token = none
        ∨ env.vault_target_addr = none ∨ env.vault_target_token = none) →
      KV.run env e tree readSec = ([], .ok .failed))
    ∧ (∀ (args : Auth.Args) (conf : List ConfMethod)
        (deletion : Option PyVal) (raw0 raw1 : List (String × RawMethod)),
        Auth.missingArgs args ≠ [] →
        (Auth.run args conf deletion raw0 raw1).1 = []
          ∧ (Auth.run args conf deletion raw0 raw1).2 ≠ .ok .completed)
    ∧ (∀ (args : Policies.Args) (distant : List String)
        (files : List LocalFile),
        Policies.missingArgs args ≠ [] →
        (Policies.run args distant files).1 = []
          ∧ (Policies.run args distant files).2 ≠ .ok .completed) := by
  refine ⟨?_, ?_, ?_⟩
  · intro env e tree readSec h
    have hc : check_env_vars env = false := by
      rcases h with h | h | h | h <;> simp [check_env_vars, h]
    simp [KV.run, hc]
  · intro args conf deletion raw0 raw1 h
    by_cases hc : Auth.check_args_integrity args
    · simp [Auth.run, hc, h]
    · simp [Auth.run, hc]
  · intro args distant files _
    exact ⟨rfl, fun hcontra => nomatch hcontra⟩

/-- Witness for C10: one concrete missing-input instance per module. -/
theorem C10_witness :
    KV.run ⟨none, some "t", some "u", some "w"⟩ (some "app")
        (fun _ => []) (fun _ => "") = ([], .ok .failed)
    ∧ ((Auth.run ⟨.vBool true, .vNone, .vStr "t", .vStr "c", false, false⟩
          [] none [] []).1 = []
        ∧ (Auth.run ⟨.vBool true, .vNone, .vStr "t", .vStr "c", false, false⟩
            [] none [] []).2 ≠ .ok .completed)
    ∧ ((Policies.run ⟨true, false, .vNone, .vStr "t", .vStr "c", false,
          false⟩ [] []).1 = []
        ∧ (Policies.run ⟨true, false, .vNone, .vStr "t", .vStr "c", false,
            false⟩ [] []).2 ≠ .ok .completed) :=
  ⟨C10_missing_inputs_fail_before_remote_calls.1 _ _ _ _ (Or.inl rfl),
    C10_missing_inputs_fail_before_remote_calls.2.1 _ _ _ _ _ (by decide),
    C10_missing_inputs_fail_before_remote_calls.2.2 _ _ _ (by decide)⟩

end VaultManager
